import Mathlib

set_option maxHeartbeats 1000000
set_option maxRecDepth 4000

/-!
Shallow embedding of the GoldVIP IPC shared-memory character device driver
(`src/ipcf/ipc-chardev.c` with the configuration constants of
`src/ipcf/ipc-mem-cfg.h`).

The per-channel ring buffer (`struct ipc_chan_descr_t` together with
`get_next_free_buff`, `get_next_pending_buff`, `init_state_vars`), the inbound
dispatcher `data_chan_rx_cb`, the device lookup `get_device_idx` and the
consumer entry points `ipcf_read` / `ipcf_write` are translated into pure Lean
functions.  C arrays become Lean `List`s indexed with `List.getD` /
`List.set`; machine integers become `Nat` (the C code keeps
`free_buff_idx ≤ IPC_QUEUE_SIZE` and `num_pending_msg ≤ IPC_QUEUE_SIZE` in all
reachable states, so the `uint32` arithmetic in the source never wraps and
agrees with `Nat` arithmetic there); the kernel-facing side effects
(`printk`, `copy_to_user`, `copy_from_user`, `ipc_shm_*`) are modelled by
explicit result values and oracle parameters.
-/

/-- Kernel object queue size, `IPC_QUEUE_SIZE` in `ipc-mem-cfg.h`. -/
def IPC_QUEUE_SIZE : Nat := 64

/-- IPCF buffer (slot) size in bytes, `IPCF_BUF_LEN` in `ipc-mem-cfg.h`. -/
def IPCF_BUF_LEN : Nat := 128

/-- Marker for invalid IPCF instances / channels, `IPC_INVALID` (0xFF). -/
def IPC_INVALID : Nat := 0xFF

/-- Linux errno `ENOMEM`, returned (negated) by `ipcf_write` when no
transport buffer is available. -/
def ENOMEM : Nat := 12

/-- Linux errno `EFAULT`, returned (negated) on a failed user-space copy. -/
def EFAULT : Nat := 14

/-- The IPCF channel descriptor `struct ipc_chan_descr_t`.  The `cdev chardev`
field (a kernel handle, not touched by the ring-buffer logic) is omitted.
`chan_pool` is the `uint8_t [IPC_QUEUE_SIZE][IPCF_BUF_LEN]` round pool: a list
of `IPC_QUEUE_SIZE` slots, each a list of bytes (values < 256 in reachable
states; byte values are never inspected by the code). -/
structure ChanDescr where
  chan_pool : List (List Nat)
  msg_size : List Nat
  msg_processed : List Bool
  free_buff_idx : Nat
  num_pending_msg : Nat
  instance_id : Nat
  channel_id : Nat
deriving Repr, DecidableEq

/-- The C `memcpy(dst, src, n)` on byte buffers: the first `n` bytes of `dst`
are replaced by the first `n` bytes of `src`, the rest of `dst` is kept. -/
def memcpy_list (dst src : List Nat) (n : Nat) : List Nat :=
  src.take n ++ dst.drop n

/-- Translation of `get_next_free_buff` (ipc-chardev.c lines 268-291): resets
`free_buff_idx` to 0 once it reaches `IPC_QUEUE_SIZE`, saturates
`num_pending_msg` at `IPC_QUEUE_SIZE`, records the message size, clears the
`processed` flag of the chosen slot and advances `free_buff_idx`.  The
returned `Nat` is the index of the chosen slot, standing for the returned
`uint8_t *` pointer into `chan_pool`. -/
def get_next_free_buff (ch : ChanDescr) (size : Nat) : ChanDescr × Nat :=
  let fidx := if IPC_QUEUE_SIZE ≤ ch.free_buff_idx then 0 else ch.free_buff_idx
  ({ ch with
      num_pending_msg := min IPC_QUEUE_SIZE (ch.num_pending_msg + 1)
      msg_size := ch.msg_size.set fidx size
      msg_processed := ch.msg_processed.set fidx false
      free_buff_idx := fidx + 1 }, fidx)

/-- The dispatcher's store step: `get_next_free_buff(ch, size)` followed by
`memcpy(pbuff, buf, size)` (ipc-chardev.c lines 368-372), with
`size = payload.length` as passed by the transport alongside `buf`. -/
def push_msg (ch : ChanDescr) (payload : List Nat) : ChanDescr :=
  let r := get_next_free_buff ch payload.length
  { r.1 with
      chan_pool := r.1.chan_pool.set r.2
        (memcpy_list (r.1.chan_pool.getD r.2 []) payload payload.length) }

/-- Translation of `get_next_pending_buff` (ipc-chardev.c lines 300-318).
The C out-parameter `*size` and the returned pointer (NULL when there is no
message) become an `Option (slot bytes × size)`.  The index arithmetic
`(IPC_QUEUE_SIZE + free_buff_idx - num_pending_msg) % IPC_QUEUE_SIZE` is kept
verbatim; in every reachable state `num_pending_msg ≤ IPC_QUEUE_SIZE ≤
IPC_QUEUE_SIZE + free_buff_idx`, so the C `uint32` subtraction never wraps and
coincides with `Nat` subtraction. -/
def get_next_pending_buff (ch : ChanDescr) : ChanDescr × Option (List Nat × Nat) :=
  let buff_idx := (IPC_QUEUE_SIZE + ch.free_buff_idx - ch.num_pending_msg) % IPC_QUEUE_SIZE
  if ch.num_pending_msg = 0 then (ch, none)
  else if ch.msg_processed.getD buff_idx true = false then
    ({ ch with
        msg_processed := ch.msg_processed.set buff_idx true
        num_pending_msg := ch.num_pending_msg - 1 },
      some (ch.chan_pool.getD buff_idx [], ch.msg_size.getD buff_idx 0))
  else (ch, none)

/-- Reset state of one channel descriptor: `init_state_vars`
(ipc-chardev.c lines 327-339) zeroes `num_pending_msg`, `free_buff_idx` and
all `msg_size` entries and marks every slot processed; the pool bytes are
zero because the descriptors live in zero-initialised static storage.  The
`instance_id` / `channel_id` fields are set by `ipcf_module_init`. -/
def init_chan (inst_id chan_id : Nat) : ChanDescr :=
  { chan_pool := List.replicate IPC_QUEUE_SIZE (List.replicate IPCF_BUF_LEN 0)
    msg_size := List.replicate IPC_QUEUE_SIZE 0
    msg_processed := List.replicate IPC_QUEUE_SIZE true
    free_buff_idx := 0
    num_pending_msg := 0
    instance_id := inst_id
    channel_id := chan_id }

/-- The slot index chosen by `get_next_free_buff`: `free_buff_idx`, reset to
0 once it has reached `IPC_QUEUE_SIZE`. -/
def push_idx (s : ChanDescr) : Nat :=
  if IPC_QUEUE_SIZE ≤ s.free_buff_idx then 0 else s.free_buff_idx

/-- Index of the oldest pending slot, exactly the `buff_idx` computed by
`get_next_pending_buff`. -/
def oldest_idx (s : ChanDescr) : Nat :=
  (IPC_QUEUE_SIZE + s.free_buff_idx - s.num_pending_msg) % IPC_QUEUE_SIZE

/-- Slot `i` lies in the circular half-open range
`[ (free_buff_idx - num_pending_msg) mod N, free_buff_idx mod N )` of length
`num_pending_msg` (the spec's "pending" range): its circular distance from
the oldest pending index is below `num_pending_msg`.  When
`num_pending_msg = N` the range is the whole ring. -/
def slot_pending (s : ChanDescr) (i : Nat) : Prop :=
  (IPC_QUEUE_SIZE + i - oldest_idx s) % IPC_QUEUE_SIZE < s.num_pending_msg

instance (s : ChanDescr) (i : Nat) : Decidable (slot_pending s i) := by
  unfold slot_pending
  infer_instance

/-- The message recorded in slot `i`: the first `msg_size[i]` bytes of the
slot, i.e. the bytes a consumer read would deliver from this slot. -/
def slot_msg (s : ChanDescr) (i : Nat) : List Nat :=
  (s.chan_pool.getD i []).take (s.msg_size.getD i 0)

/-- Abstraction of the ring buffer to a functional queue: the pending
messages, oldest first. -/
def pending_msgs (s : ChanDescr) : List (List Nat) :=
  (List.range s.num_pending_msg).map fun j =>
    slot_msg s ((oldest_idx s + j) % IPC_QUEUE_SIZE)

/-- Well-formedness of a channel descriptor: the array lengths fixed by
`struct ipc_chan_descr_t`, the bounds on `free_buff_idx` and
`num_pending_msg`, and the characterisation of the `processed` flags by the
pending range.  This holds in every state reachable from `init_chan`. -/
def WF (s : ChanDescr) : Prop :=
  s.chan_pool.length = IPC_QUEUE_SIZE ∧
  s.msg_size.length = IPC_QUEUE_SIZE ∧
  s.msg_processed.length = IPC_QUEUE_SIZE ∧
  s.num_pending_msg ≤ IPC_QUEUE_SIZE ∧
  s.free_buff_idx ≤ IPC_QUEUE_SIZE ∧
  ∀ i, i < IPC_QUEUE_SIZE → (s.msg_processed.getD i true = false ↔ slot_pending s i)

/-- Sequence of pushes with no intervening pops. -/
def push_all (s : ChanDescr) (ms : List (List Nat)) : ChanDescr :=
  ms.foldl push_msg s

/-- One pop returning the delivered message bytes: `get_next_pending_buff`
followed by taking the recorded size, as `ipcf_read` does with
`copy_to_user(buffer, pbuff, pbuff_size)`. -/
def pop_take (s : ChanDescr) : ChanDescr × Option (List Nat) :=
  let r := get_next_pending_buff s
  (r.1, r.2.map fun x => x.1.take x.2)

/-- Iterated pops, collecting each pop's result (`none` = empty). -/
def pops : ChanDescr → Nat → List (Option (List Nat)) × ChanDescr
  | s, 0 => ([], s)
  | s, n + 1 =>
    let r := pop_take s
    let rest := pops r.1 n
    (r.2 :: rest.1, rest.2)

/-- One step of the sequential push/pop interface of a channel descriptor. -/
inductive ChanOp where
  | push (payload : List Nat)
  | pop
deriving Repr

/-- Apply one operation to a descriptor (a pop discards the returned
message and keeps the updated state). -/
def chan_step (s : ChanDescr) : ChanOp → ChanDescr
  | .push p => push_msg s p
  | .pop => (get_next_pending_buff s).1

/-- State after running a sequence of pushes and pops from the reset state. -/
def run_ops (ops : List ChanOp) : ChanDescr :=
  ops.foldl chan_step (init_chan 0 0)

/-- Translation of `get_device_idx` (ipc-chardev.c lines 244-256): the first
descriptor matching `(inst_id, chan_id)`, else `IPC_INVALID`.  The global
array `ipc_ch_descr[IPC_NUM_CHANNELS]` is passed explicitly as a list. -/
def get_device_idx (descrs : List ChanDescr) (inst_id chan_id : Nat) : Nat :=
  match descrs.findIdx? fun d => d.instance_id == inst_id && d.channel_id == chan_id with
  | some i => i
  | none => IPC_INVALID

/-- Error events logged (via `printk`) by `data_chan_rx_cb`. -/
inductive RxError where
  | unknown_device
  | too_large
deriving Repr, DecidableEq

/-- Result of one invocation of the inbound dispatcher: the updated
descriptor array, how many times `ipc_shm_release_buf` was invoked, and
which error (if any) was logged. -/
structure RxResult where
  descrs : List ChanDescr
  releases : Nat
  err : Option RxError
deriving Repr, DecidableEq

/-- Translation of `data_chan_rx_cb` (ipc-chardev.c lines 352-386).  The
transport hands the callback a buffer `buf` together with its size; here
`buf` is the byte list and `size = buf.length`.  The `goto free_ipc_buffer`
paths all end in exactly one `ipc_shm_release_buf` call, counted in
`releases`. -/
def data_chan_rx_cb (descrs : List ChanDescr) (inst_id chan_id : Nat)
    (buf : List Nat) : RxResult :=
  if buf.length ≤ IPCF_BUF_LEN then
    let dev_id := get_device_idx descrs inst_id chan_id
    if dev_id = IPC_INVALID then
      { descrs := descrs, releases := 1, err := some .unknown_device }
    else
      { descrs := descrs.set dev_id (push_msg (descrs.getD dev_id (init_chan 0 0)) buf)
        releases := 1
        err := none }
  else
    { descrs := descrs, releases := 1, err := some .too_large }

/-- The kernel's `cpu_to_be32`: a 32-bit value as four bytes, most
significant first, as they are copied to user space by `ipcf_read`. -/
def cpu_to_be32 (n : Nat) : List Nat :=
  [n / 2 ^ 24 % 256, n / 2 ^ 16 % 256, n / 2 ^ 8 % 256, n % 256]

/-- Big-endian decoding of a byte list (most significant byte first). -/
def be32_decode (bs : List Nat) : Nat :=
  bs.foldl (fun acc b => acc * 256 + b) 0

/-- Translation of `ipcf_read` (ipc-chardev.c lines 404-434) for a channel
whose framing flag (`inst_descr[..].chan_prepend_size[..]`) is `prepend`.
Returns the updated descriptor and the bytes delivered to user space ( `[]`
when no message is pending; the C return value is the length of those
bytes).  `copy_to_user` is modelled as succeeding; its failure path (return
`-EFAULT`, message discarded) delivers no bytes and is outside the claims.
The caller-supplied buffer size `length` is received but — exactly as in the
C source — never consulted. -/
def ipcf_read (prepend : Bool) (ch : ChanDescr) (length : Nat) :
    ChanDescr × List Nat :=
  let r := get_next_pending_buff ch
  match r.2 with
  | none => (r.1, [])
  | some x =>
    if prepend then (r.1, cpu_to_be32 x.2 ++ x.1.take x.2)
    else (r.1, x.1.take x.2)

/-- Result of `ipcf_write`: the returned `ssize_t` and the buffer content
handed to `ipc_shm_tx` (`none` when `ipc_shm_tx` was never reached). -/
structure WriteResult where
  ret : Int
  transmitted : Option (List Nat)
deriving Repr, DecidableEq

/-- Translation of `ipcf_write` (ipc-chardev.c lines 450-483).  The transport
and user-copy outcomes are oracle parameters: `buf_avail` is whether
`ipc_shm_acquire_buf` returns a buffer, `copy_ok` whether `copy_from_user`
succeeds, `tx_ret` the `ipc_shm_tx` return value (0 = success).  `user_buf`
is the caller's payload; the C code first truncates `length` to
`IPCF_BUF_LEN`, then acquires, copies `length` bytes and transmits. -/
def ipcf_write (buf_avail copy_ok : Bool) (tx_ret : Int)
    (user_buf : List Nat) : WriteResult :=
  let length := if IPCF_BUF_LEN < user_buf.length then IPCF_BUF_LEN else user_buf.length
  if buf_avail = false then { ret := -(ENOMEM : Int), transmitted := none }
  else if copy_ok = false then { ret := -(EFAULT : Int), transmitted := none }
  else if tx_ret ≠ 0 then { ret := tx_ret, transmitted := some (user_buf.take length) }
  else { ret := (length : Int), transmitted := some (user_buf.take length) }

/-- Ghost-instrumented descriptor used to state the no-double-delivery
property: the channel descriptor of the source, plus for each slot the
serial number (`slot_id`) of the push that last wrote it, a fresh-id counter
`next_id`, and the trace `delivered` of serial numbers handed out by
successful pops.  The ghost fields never influence the `ChanDescr`
component (see `ghost_run_ch`). -/
structure GhostState where
  ch : ChanDescr
  slot_id : List Nat
  next_id : Nat
  delivered : List Nat
deriving Repr, DecidableEq

/-- Ghost reset state. -/
def ghost_init : GhostState :=
  { ch := init_chan 0 0
    slot_id := List.replicate IPC_QUEUE_SIZE 0
    next_id := 1
    delivered := [] }

/-- Push with ghost instrumentation: the written slot (the index returned by
`get_next_free_buff`) is tagged with the fresh serial number. -/
def ghost_push (g : GhostState) (payload : List Nat) : GhostState :=
  { ch := push_msg g.ch payload
    slot_id := g.slot_id.set (get_next_free_buff g.ch payload.length).2 g.next_id
    next_id := g.next_id + 1
    delivered := g.delivered }

/-- Pop with ghost instrumentation: a successful pop (the slot at
`oldest_idx`, exactly the `buff_idx` of `get_next_pending_buff`) appends
that slot's serial number to the delivery trace. -/
def ghost_pop (g : GhostState) : GhostState :=
  let r := get_next_pending_buff g.ch
  match r.2 with
  | none => { g with ch := r.1 }
  | some _ =>
    { g with
        ch := r.1
        delivered := g.delivered ++ [g.slot_id.getD (oldest_idx g.ch) 0] }

/-- One ghost-instrumented step. -/
def ghost_step (g : GhostState) : ChanOp → GhostState
  | .push p => ghost_push g p
  | .pop => ghost_pop g

/-- Ghost-instrumented run from the reset state. -/
def ghost_run (ops : List ChanOp) : GhostState :=
  ops.foldl ghost_step ghost_init

/-- Invariant of the ghost-instrumented machine: the underlying descriptor is
well formed, every slot's serial number is below the fresh counter, the
delivery trace holds pairwise-distinct serial numbers below the counter, an
unprocessed slot's serial number has never been delivered, and two distinct
unprocessed slots carry distinct serial numbers. -/
def GhostInv (g : GhostState) : Prop :=
  WF g.ch ∧
  g.slot_id.length = IPC_QUEUE_SIZE ∧
  (∀ i, i < IPC_QUEUE_SIZE → g.slot_id.getD i 0 < g.next_id) ∧
  (∀ d ∈ g.delivered, d < g.next_id) ∧
  g.delivered.Nodup ∧
  (∀ i, i < IPC_QUEUE_SIZE → g.ch.msg_processed.getD i true = false →
    g.slot_id.getD i 0 ∉ g.delivered) ∧
  (∀ i j, i < IPC_QUEUE_SIZE → j < IPC_QUEUE_SIZE → i ≠ j →
    g.ch.msg_processed.getD i true = false → g.ch.msg_processed.getD j true = false →
    g.slot_id.getD i 0 ≠ g.slot_id.getD j 0)

/-! ## Basic facts about the configuration constants and list indexing -/

theorem queue_size_eq : IPC_QUEUE_SIZE = 64 := rfl

theorem buf_len_eq : IPCF_BUF_LEN = 128 := rfl

theorem queue_size_pos : 0 < IPC_QUEUE_SIZE := by decide

theorem getD_set_self {α : Type} (l : List α) (i : Nat) (a d : α) (h : i < l.length) :
    (l.set i a).getD i d = a := by
  rw [List.getD_eq_getElem _ _ (by simpa using h)]
  simp

theorem getD_set_ne {α : Type} (l : List α) (i j : Nat) (a d : α) (h : i ≠ j) :
    (l.set i a).getD j d = l.getD j d := by
  rcases Nat.lt_or_ge j l.length with hj | hj
  · rw [List.getD_eq_getElem _ _ (by simpa using hj), List.getD_eq_getElem _ _ hj]
    simp [List.getElem_set_ne h]
  · rw [List.getD_eq_default _ _ (by simpa using hj), List.getD_eq_default _ _ hj]

theorem getD_replicate {α : Type} (n i : Nat) (a d : α) (h : i < n) :
    (List.replicate n a).getD i d = a := by
  rw [List.getD_eq_getElem _ _ (by simpa using h)]
  simp

/-! ## Structural lemmas about the ring-buffer operations -/

theorem oldest_idx_def (s : ChanDescr) :
    (IPC_QUEUE_SIZE + s.free_buff_idx - s.num_pending_msg) % IPC_QUEUE_SIZE = oldest_idx s := rfl

theorem oldest_idx_lt (s : ChanDescr) : oldest_idx s < IPC_QUEUE_SIZE :=
  Nat.mod_lt _ queue_size_pos

theorem push_idx_lt (s : ChanDescr) (h : s.free_buff_idx ≤ IPC_QUEUE_SIZE) :
    push_idx s < IPC_QUEUE_SIZE := by
  unfold push_idx
  split <;> (simp only [queue_size_eq] at * ; omega)

theorem push_idx_mod (s : ChanDescr) (h : s.free_buff_idx ≤ IPC_QUEUE_SIZE) :
    push_idx s = s.free_buff_idx % IPC_QUEUE_SIZE := by
  unfold push_idx
  split <;> (simp only [queue_size_eq] at * ; omega)

theorem pop_empty (s : ChanDescr) (h : s.num_pending_msg = 0) :
    get_next_pending_buff s = (s, none) := by
  simp [get_next_pending_buff, h]

theorem pop_succ_of (s : ChanDescr) (hp : s.num_pending_msg ≠ 0)
    (hproc : s.msg_processed.getD (oldest_idx s) true = false) :
    get_next_pending_buff s =
      ({ s with
          msg_processed := s.msg_processed.set (oldest_idx s) true
          num_pending_msg := s.num_pending_msg - 1 },
        some (s.chan_pool.getD (oldest_idx s) [], s.msg_size.getD (oldest_idx s) 0)) := by
  simp only [get_next_pending_buff, oldest_idx_def, hproc, if_neg hp]
  simp

theorem push_msg_eq (s : ChanDescr) (m : List Nat) :
    push_msg s m =
      { chan_pool := s.chan_pool.set (push_idx s)
          (m ++ (s.chan_pool.getD (push_idx s) []).drop m.length)
        msg_size := s.msg_size.set (push_idx s) m.length
        msg_processed := s.msg_processed.set (push_idx s) false
        free_buff_idx := push_idx s + 1
        num_pending_msg := min IPC_QUEUE_SIZE (s.num_pending_msg + 1)
        instance_id := s.instance_id
        channel_id := s.channel_id } := by
  simp [push_msg, get_next_free_buff, memcpy_list, push_idx]

theorem WF_init (a b : Nat) : WF (init_chan a b) := by
  refine ⟨by simp [init_chan], by simp [init_chan], by simp [init_chan],
    by simp [init_chan], by simp [init_chan], ?_⟩
  intro i hi
  show (List.replicate IPC_QUEUE_SIZE true).getD i true = false ↔ _
  rw [getD_replicate _ _ _ _ hi]
  simp [slot_pending, init_chan]

theorem WF_oldest_unprocessed (s : ChanDescr) (hw : WF s) (hp : 0 < s.num_pending_msg) :
    s.msg_processed.getD (oldest_idx s) true = false := by
  obtain ⟨-, -, -, h4, h5, h6⟩ := hw
  apply (h6 _ (oldest_idx_lt s)).mpr
  unfold slot_pending oldest_idx
  simp only [queue_size_eq] at *
  omega

theorem pop_succ (s : ChanDescr) (hw : WF s) (hp : 0 < s.num_pending_msg) :
    get_next_pending_buff s =
      ({ s with
          msg_processed := s.msg_processed.set (oldest_idx s) true
          num_pending_msg := s.num_pending_msg - 1 },
        some (s.chan_pool.getD (oldest_idx s) [], s.msg_size.getD (oldest_idx s) 0)) :=
  pop_succ_of s (Nat.pos_iff_ne_zero.mp hp) (WF_oldest_unprocessed s hw hp)

theorem WF_pop (s : ChanDescr) (hw : WF s) : WF (get_next_pending_buff s).1 := by
  rcases Nat.eq_zero_or_pos s.num_pending_msg with hz | hp
  · rw [pop_empty s hz]
    exact hw
  · obtain ⟨h1, h2, h3, h4, h5, h6⟩ := hw
    rw [pop_succ s ⟨h1, h2, h3, h4, h5, h6⟩ hp]
    refine ⟨by simpa using h1, by simpa using h2, by simpa using h3,
      by simp; omega, by simpa using h5, ?_⟩
    intro i hi
    by_cases hieq : i = oldest_idx s
    · subst hieq
      show (s.msg_processed.set (oldest_idx s) true).getD (oldest_idx s) true = false ↔ _
      rw [getD_set_self _ _ _ _ (by rw [h3]; exact oldest_idx_lt s)]
      simp only [slot_pending, oldest_idx]
      simp only [queue_size_eq] at *
      constructor
      · intro hc
        exact absurd hc (by simp)
      · intro hc
        exfalso
        omega
    · show (s.msg_processed.set (oldest_idx s) true).getD i true = false ↔ _
      rw [getD_set_ne _ _ _ _ _ (fun he => hieq he.symm)]
      rw [h6 i hi]
      simp only [slot_pending, oldest_idx] at hieq ⊢
      simp only [queue_size_eq] at *
      constructor <;> intro hc <;> omega

theorem WF_push (s : ChanDescr) (hw : WF s) (m : List Nat) : WF (push_msg s m) := by
  obtain ⟨h1, h2, h3, h4, h5, h6⟩ := hw
  have hfx := push_idx_mod s h5
  have hfl := push_idx_lt s h5
  rw [push_msg_eq]
  refine ⟨by simpa using h1, by simpa using h2, by simpa using h3,
    by simp, by simp only [queue_size_eq] at *; omega, ?_⟩
  intro i hi
  by_cases hieq : i = push_idx s
  · subst hieq
    show (s.msg_processed.set (push_idx s) false).getD (push_idx s) true = false ↔ _
    rw [getD_set_self _ _ _ _ (by rw [h3]; exact hfl)]
    simp only [slot_pending, oldest_idx]
    simp only [queue_size_eq] at *
    constructor
    · intro hc
      omega
    · intro hc
      trivial
  · show (s.msg_processed.set (push_idx s) false).getD i true = false ↔ _
    rw [getD_set_ne _ _ _ _ _ (fun he => hieq he.symm)]
    rw [h6 i hi]
    simp only [slot_pending, oldest_idx] at hieq ⊢
    simp only [queue_size_eq] at *
    constructor <;> intro hc <;> omega

theorem pending_msgs_length (s : ChanDescr) :
    (pending_msgs s).length = s.num_pending_msg := by
  simp [pending_msgs]

theorem slot_msg_congr (s t : ChanDescr) (i j : Nat)
    (hpool : s.chan_pool = t.chan_pool) (hsize : s.msg_size = t.msg_size)
    (hij : i = j) : slot_msg s i = slot_msg t j := by
  unfold slot_msg
  rw [hpool, hsize, hij]

theorem push_msg_pend (s : ChanDescr) (m : List Nat) :
    (push_msg s m).num_pending_msg = min IPC_QUEUE_SIZE (s.num_pending_msg + 1) := by
  rw [push_msg_eq]

theorem push_msg_free (s : ChanDescr) (m : List Nat) :
    (push_msg s m).free_buff_idx = push_idx s + 1 := by
  rw [push_msg_eq]

theorem oldest_idx_push (s : ChanDescr) (m : List Nat) :
    oldest_idx (push_msg s m) =
      (IPC_QUEUE_SIZE + (push_idx s + 1) - min IPC_QUEUE_SIZE (s.num_pending_msg + 1)) %
        IPC_QUEUE_SIZE := by
  unfold oldest_idx
  rw [push_msg_pend, push_msg_free]

theorem slot_msg_push_ne (s : ChanDescr) (m : List Nat) (j : Nat) (hj : j ≠ push_idx s) :
    slot_msg (push_msg s m) j = slot_msg s j := by
  rw [push_msg_eq]
  unfold slot_msg
  dsimp only
  rw [getD_set_ne _ _ _ _ _ (fun he => hj he.symm),
    getD_set_ne _ _ _ _ _ (fun he => hj he.symm)]

theorem slot_msg_push_self (s : ChanDescr) (m : List Nat)
    (hpool : s.chan_pool.length = IPC_QUEUE_SIZE)
    (hsize : s.msg_size.length = IPC_QUEUE_SIZE)
    (hfree : s.free_buff_idx ≤ IPC_QUEUE_SIZE) :
    slot_msg (push_msg s m) (push_idx s) = m := by
  rw [push_msg_eq]
  unfold slot_msg
  dsimp only
  rw [getD_set_self _ _ _ _ (by rw [hsize]; exact push_idx_lt s hfree),
    getD_set_self _ _ _ _ (by rw [hpool]; exact push_idx_lt s hfree)]
  exact List.take_left m _

theorem pending_msgs_pop (s : ChanDescr) (hw : WF s) (hp : 0 < s.num_pending_msg) :
    pending_msgs s =
      slot_msg s (oldest_idx s) :: pending_msgs (get_next_pending_buff s).1 := by
  have hfields := pop_succ s hw hp
  obtain ⟨h1, h2, h3, h4, h5, h6⟩ := hw
  rw [hfields]
  unfold pending_msgs
  have hsplit : s.num_pending_msg = (s.num_pending_msg - 1) + 1 := by omega
  conv_lhs => rw [hsplit, List.range_succ_eq_map]
  rw [List.map_cons, List.map_map]
  congr 1
  · congr 1
    have := oldest_idx_lt s
    simp only [queue_size_eq] at *
    omega
  · apply List.map_congr_left
    intro j hj
    simp only [List.mem_range] at hj
    simp only [Function.comp_apply]
    refine slot_msg_congr _ _ _ _ rfl rfl ?_
    simp only [oldest_idx]
    simp only [queue_size_eq] at *
    omega

theorem pending_msgs_push (s : ChanDescr) (hw : WF s) (m : List Nat) :
    pending_msgs (push_msg s m) =
      (pending_msgs s ++ [m]).drop (s.num_pending_msg + 1 - IPC_QUEUE_SIZE) := by
  obtain ⟨h1, h2, h3, h4, h5, h6⟩ := hw
  have hfx := push_idx_mod s h5
  have hfl := push_idx_lt s h5
  rcases Nat.lt_or_ge s.num_pending_msg IPC_QUEUE_SIZE with hlt | hge
  · have hdrop : s.num_pending_msg + 1 - IPC_QUEUE_SIZE = 0 := by
      simp only [queue_size_eq] at h4 hlt ⊢
      omega
    rw [hdrop, List.drop_zero]
    have hpend : (push_msg s m).num_pending_msg = s.num_pending_msg + 1 := by
      rw [push_msg_pend]
      simp only [queue_size_eq] at hlt ⊢
      omega
    unfold pending_msgs
    rw [hpend, List.range_succ, List.map_append, List.map_cons, List.map_nil]
    congr 1
    · apply List.map_congr_left
      intro j hj
      simp only [List.mem_range] at hj
      have hne : (oldest_idx (push_msg s m) + j) % IPC_QUEUE_SIZE ≠ push_idx s := by
        rw [oldest_idx_push, hfx]
        simp only [queue_size_eq] at h4 h5 hlt hj ⊢
        omega
      rw [slot_msg_push_ne s m _ hne]
      refine slot_msg_congr _ _ _ _ rfl rfl ?_
      rw [oldest_idx_push, hfx]
      simp only [oldest_idx]
      simp only [queue_size_eq] at h4 h5 hlt hj ⊢
      omega
    · have hidx : (oldest_idx (push_msg s m) + s.num_pending_msg) % IPC_QUEUE_SIZE
          = push_idx s := by
        rw [oldest_idx_push, hfx]
        simp only [queue_size_eq] at h4 h5 hlt ⊢
        omega
      rw [hidx, slot_msg_push_self s m h1 h2 h5]
  · have hp64 : s.num_pending_msg = IPC_QUEUE_SIZE := Nat.le_antisymm h4 hge
    have hdrop : s.num_pending_msg + 1 - IPC_QUEUE_SIZE = 1 := by
      rw [hp64]
      decide
    rw [hdrop, List.drop_append_of_le_length (by rw [pending_msgs_length]; omega)]
    have hpend : (push_msg s m).num_pending_msg = IPC_QUEUE_SIZE := by
      rw [push_msg_pend, hp64]
      decide
    unfold pending_msgs
    rw [hpend, hp64]
    have hrangeA : List.range IPC_QUEUE_SIZE = List.range 63 ++ [63] := by decide
    have hrangeB : List.range IPC_QUEUE_SIZE = 0 :: List.map Nat.succ (List.range 63) := by
      decide
    conv_lhs => rw [hrangeA]
    conv_rhs => rw [hrangeB]
    rw [List.map_append, List.map_cons, List.map_nil, List.map_cons, List.map_map,
      List.drop_succ_cons, List.drop_zero]
    congr 1
    · apply List.map_congr_left
      intro j hj
      simp only [List.mem_range] at hj
      have hne : (oldest_idx (push_msg s m) + j) % IPC_QUEUE_SIZE ≠ push_idx s := by
        rw [oldest_idx_push, hfx]
        rw [hp64]
        simp only [queue_size_eq] at h5 hj ⊢
        omega
      rw [slot_msg_push_ne s m _ hne]
      simp only [Function.comp_apply]
      refine slot_msg_congr _ _ _ _ rfl rfl ?_
      rw [oldest_idx_push, hfx, hp64]
      simp only [oldest_idx]
      rw [hp64]
      simp only [queue_size_eq] at h5 hj ⊢
      omega
    · have hidx : (oldest_idx (push_msg s m) + 63) % IPC_QUEUE_SIZE = push_idx s := by
        rw [oldest_idx_push, hfx, hp64]
        simp only [queue_size_eq] at h5 ⊢
        omega
      rw [hidx, slot_msg_push_self s m h1 h2 h5]

theorem pending_msgs_init (a b : Nat) : pending_msgs (init_chan a b) = [] := by
  simp [pending_msgs, init_chan]

theorem push_all_sim (ms : List (List Nat)) : ∀ (s : ChanDescr), WF s →
    WF (push_all s ms) ∧
    pending_msgs (push_all s ms) =
      (pending_msgs s ++ ms).drop (s.num_pending_msg + ms.length - IPC_QUEUE_SIZE) := by
  induction ms with
  | nil =>
    intro s hw
    refine ⟨hw, ?_⟩
    obtain ⟨-, -, -, h4, -, -⟩ := hw
    have hz : s.num_pending_msg + ([] : List (List Nat)).length - IPC_QUEUE_SIZE = 0 := by
      simp only [queue_size_eq] at h4 ⊢
      simp
      omega
    rw [hz]
    simp [push_all]
  | cons m ms ih =>
    intro s hw
    have hw' := WF_push s hw m
    have hstep := pending_msgs_push s hw m
    have hrec := ih (push_msg s m) hw'
    have hlen : (pending_msgs s).length = s.num_pending_msg := pending_msgs_length s
    obtain ⟨-, -, -, h4, -, -⟩ := hw
    constructor
    · simpa only [push_all, List.foldl_cons] using hrec.1
    · simp only [push_all, List.foldl_cons] at hrec ⊢
      rw [hrec.2, hstep, push_msg_pend]
      rw [← List.drop_append_of_le_length (by simp [hlen])]
      rw [List.drop_drop]
      rw [List.append_assoc, List.singleton_append]
      congr 1
      simp only [queue_size_eq] at h4 ⊢
      simp only [List.length_cons]
      omega

theorem pops_sim : ∀ (n : Nat) (s : ChanDescr), WF s → n ≤ s.num_pending_msg →
    (pops s n).1 = ((pending_msgs s).take n).map some ∧
    WF (pops s n).2 ∧
    pending_msgs (pops s n).2 = (pending_msgs s).drop n := by
  intro n
  induction n with
  | zero =>
    intro s hw hn
    exact ⟨by simp [pops], hw, by simp [pops]⟩
  | succ k ih =>
    intro s hw hn
    have hp : 0 < s.num_pending_msg := by omega
    have hpop := pop_succ s hw hp
    have hdec := pending_msgs_pop s hw hp
    have hw' := WF_pop s hw
    have hpend' : (get_next_pending_buff s).1.num_pending_msg = s.num_pending_msg - 1 := by
      rw [hpop]
    have hrec := ih (get_next_pending_buff s).1 hw' (by omega)
    have hval : (get_next_pending_buff s).2 =
        some (s.chan_pool.getD (oldest_idx s) [], s.msg_size.getD (oldest_idx s) 0) := by
      rw [hpop]
    refine ⟨?_, hrec.2.1, ?_⟩
    · simp only [pops, pop_take]
      rw [hval, hrec.1, hdec]
      simp [slot_msg]
    · simp only [pops, pop_take]
      rw [hrec.2.2, hdec]
      simp

theorem WF_foldl (ops : List ChanOp) : ∀ s, WF s → WF (ops.foldl chan_step s) := by
  induction ops with
  | nil =>
    intro s hw
    simpa using hw
  | cons op ops ih =>
    intro s hw
    simp only [List.foldl_cons]
    apply ih
    cases op with
    | push p => exact WF_push s hw p
    | pop => exact WF_pop s hw

theorem WF_run (ops : List ChanOp) : WF (run_ops ops) :=
  WF_foldl ops _ (WF_init 0 0)

/-! ## Ghost machine lemmas -/

theorem gnfb_idx (ch : ChanDescr) (sz : Nat) :
    (get_next_free_buff ch sz).2 = push_idx ch := rfl

theorem ghost_pop_ch (g : GhostState) :
    (ghost_pop g).ch = (get_next_pending_buff g.ch).1 := by
  unfold ghost_pop
  rcases hr : (get_next_pending_buff g.ch).2 with _ | v <;> simp [hr]

theorem push_msg_proc (s : ChanDescr) (m : List Nat) :
    (push_msg s m).msg_processed = s.msg_processed.set (push_idx s) false := by
  rw [push_msg_eq]

theorem ghost_inv_push (g : GhostState) (hg : GhostInv g) (p : List Nat) :
    GhostInv (ghost_push g p) := by
  obtain ⟨hwf, hlen, hids, hdel, hnd, hfresh, hdist⟩ := hg
  have hw' := WF_push g.ch hwf p
  obtain ⟨w1, w2, w3, w4, w5, w6⟩ := hwf
  have hfl := push_idx_lt g.ch w5
  unfold ghost_push
  rw [gnfb_idx]
  refine ⟨hw', by simpa using hlen, ?_, ?_, hnd, ?_, ?_⟩
  · dsimp only
    intro i hi
    by_cases hieq : i = push_idx g.ch
    · subst hieq
      rw [getD_set_self _ _ _ _ (by rw [hlen]; exact hfl)]
      omega
    · rw [getD_set_ne _ _ _ _ _ (fun he => hieq he.symm)]
      exact Nat.lt_succ_of_lt (hids i hi)
  · dsimp only
    intro d hd
    exact Nat.lt_succ_of_lt (hdel d hd)
  · dsimp only
    intro i hi hpr
    rw [push_msg_proc] at hpr
    by_cases hieq : i = push_idx g.ch
    · subst hieq
      rw [getD_set_self _ _ _ _ (by rw [hlen]; exact hfl)]
      intro hmem
      exact absurd (hdel _ hmem) (by omega)
    · rw [getD_set_ne _ _ _ _ _ (fun he => hieq he.symm)] at hpr ⊢
      exact hfresh i hi hpr
  · dsimp only
    intro i j hi hj hij hpi hpj
    rw [push_msg_proc] at hpi hpj
    by_cases hieq : i = push_idx g.ch
    · subst hieq
      rw [getD_set_self _ _ _ _ (by rw [hlen]; exact hfl)]
      rw [getD_set_ne _ _ _ _ _ hij] at hpj ⊢
      have := hids j hj
      omega
    · by_cases hjeq : j = push_idx g.ch
      · subst hjeq
        rw [getD_set_self _ _ _ _ (by rw [hlen]; exact hfl)]
        rw [getD_set_ne _ _ _ _ _ (fun he => hieq he.symm)] at hpi ⊢
        have := hids i hi
        omega
      · rw [getD_set_ne _ _ _ _ _ (fun he => hieq he.symm)] at hpi ⊢
        rw [getD_set_ne _ _ _ _ _ (fun he => hjeq he.symm)] at hpj
        rw [getD_set_ne _ _ _ _ _ (fun he => hjeq he.symm)]
        exact hdist i j hi hj hij hpi hpj

theorem ghost_inv_pop (g : GhostState) (hg : GhostInv g) : GhostInv (ghost_pop g) := by
  obtain ⟨hwf, hlen, hids, hdel, hnd, hfresh, hdist⟩ := hg
  rcases Nat.eq_zero_or_pos g.ch.num_pending_msg with hz | hp
  · unfold ghost_pop
    rw [pop_empty g.ch hz]
    exact ⟨hwf, hlen, hids, hdel, hnd, hfresh, hdist⟩
  · have hpop := pop_succ g.ch hwf hp
    have hproc0 := WF_oldest_unprocessed g.ch hwf hp
    have hw' := WF_pop g.ch hwf
    rw [hpop] at hw'
    have ho := oldest_idx_lt g.ch
    have hid0 : g.slot_id.getD (oldest_idx g.ch) 0 ∉ g.delivered := hfresh _ ho hproc0
    obtain ⟨w1, w2, w3, w4, w5, w6⟩ := hwf
    unfold ghost_pop
    rw [hpop]
    refine ⟨hw', hlen, hids, ?_, ?_, ?_, ?_⟩
    · intro d hd
      rcases List.mem_append.mp hd with hold | hnew
      · exact hdel d hold
      · rw [List.mem_singleton] at hnew
        subst hnew
        exact hids _ ho
    · rw [List.nodup_append]
      refine ⟨hnd, List.nodup_singleton _, ?_⟩
      intro a ha hb
      rw [List.mem_singleton] at hb
      subst hb
      exact hid0 ha
    · intro i hi hpr
      by_cases hieq : i = oldest_idx g.ch
      · subst hieq
        rw [getD_set_self _ _ _ _ (by rw [w3]; exact ho)] at hpr
        exact absurd hpr (by simp)
      · rw [getD_set_ne _ _ _ _ _ (fun he => hieq he.symm)] at hpr
        have h1 := hfresh i hi hpr
        have h2 := hdist i (oldest_idx g.ch) hi ho hieq hpr hproc0
        rw [List.mem_append, List.mem_singleton]
        rintro (hc | hc)
        · exact h1 hc
        · exact h2 hc
    · intro i j hi hj hij hpi hpj
      by_cases hieq : i = oldest_idx g.ch
      · subst hieq
        rw [getD_set_self _ _ _ _ (by rw [w3]; exact ho)] at hpi
        exact absurd hpi (by simp)
      · by_cases hjeq : j = oldest_idx g.ch
        · subst hjeq
          rw [getD_set_self _ _ _ _ (by rw [w3]; exact ho)] at hpj
          exact absurd hpj (by simp)
        · rw [getD_set_ne _ _ _ _ _ (fun he => hieq he.symm)] at hpi
          rw [getD_set_ne _ _ _ _ _ (fun he => hjeq he.symm)] at hpj
          exact hdist i j hi hj hij hpi hpj

theorem ghost_inv_init : GhostInv ghost_init := by
  refine ⟨WF_init 0 0, by simp [ghost_init], ?_, ?_, ?_, ?_, ?_⟩
  · intro i hi
    show (List.replicate IPC_QUEUE_SIZE 0).getD i 0 < 1
    rw [getD_replicate _ _ _ _ hi]
    omega
  · intro d hd
    simp [ghost_init] at hd
  · simp [ghost_init]
  · intro i hi hpr
    have hpr' : (List.replicate IPC_QUEUE_SIZE true).getD i true = false := hpr
    rw [getD_replicate _ _ _ _ hi] at hpr'
    exact absurd hpr' (by simp)
  · intro i j hi hj hij hpi hpj
    have hpi' : (List.replicate IPC_QUEUE_SIZE true).getD i true = false := hpi
    rw [getD_replicate _ _ _ _ hi] at hpi'
    exact absurd hpi' (by simp)

theorem ghost_inv_foldl (ops : List ChanOp) :
    ∀ g, GhostInv g → GhostInv (ops.foldl ghost_step g) := by
  induction ops with
  | nil =>
    intro g hg
    simpa using hg
  | cons op ops ih =>
    intro g hg
    simp only [List.foldl_cons]
    apply ih
    cases op with
    | push p => exact ghost_inv_push g hg p
    | pop => exact ghost_inv_pop g hg

theorem ghost_ch_foldl (ops : List ChanOp) :
    ∀ g, (ops.foldl ghost_step g).ch = ops.foldl chan_step g.ch := by
  induction ops with
  | nil =>
    intro g
    simp
  | cons op ops ih =>
    intro g
    simp only [List.foldl_cons]
    rw [ih]
    cases op with
    | push p => rfl
    | pop =>
      show (ops.foldl chan_step (ghost_pop g).ch) = _
      rw [ghost_pop_ch]
      rfl

/-! ## Support lemmas for the read/write claims -/

theorem be32_decode_encode (n : Nat) (h : n < 2 ^ 32) :
    be32_decode (cpu_to_be32 n) = n := by
  unfold be32_decode cpu_to_be32
  simp only [List.foldl_cons, List.foldl_nil]
  norm_num
  omega

theorem cpu_to_be32_length (n : Nat) : (cpu_to_be32 n).length = 4 := by
  simp [cpu_to_be32]

theorem read_succ (prepend : Bool) (ch : ChanDescr) (len : Nat)
    (hp : ch.num_pending_msg ≠ 0)
    (hpr : ch.msg_processed.getD (oldest_idx ch) true = false) :
    ipcf_read prepend ch len =
      ((get_next_pending_buff ch).1,
        if prepend then
          cpu_to_be32 (ch.msg_size.getD (oldest_idx ch) 0) ++
            (ch.chan_pool.getD (oldest_idx ch) []).take (ch.msg_size.getD (oldest_idx ch) 0)
        else (ch.chan_pool.getD (oldest_idx ch) []).take (ch.msg_size.getD (oldest_idx ch) 0)) := by
  unfold ipcf_read
  rw [pop_succ_of ch hp hpr]
  cases prepend <;> simp

/-! ## Claim theorems -/

/-- C6: every invocation of the inbound dispatcher `data_chan_rx_cb` —
whether the payload is stored, the payload is larger than `IPCF_BUF_LEN`, or
the `(instance, channel)` pair resolves to no device — invokes the transport
buffer release operation `ipc_shm_release_buf` exactly once before
returning. -/
theorem claim_C6_release_exactly_once (descrs : List ChanDescr)
    (inst_id chan_id : Nat) (buf : List Nat) :
    (data_chan_rx_cb descrs inst_id chan_id buf).releases = 1 := by
  by_cases hsz : buf.length ≤ IPCF_BUF_LEN
  · by_cases hdev : get_device_idx descrs inst_id chan_id = IPC_INVALID
    · simp [data_chan_rx_cb, hsz, hdev]
    · simp [data_chan_rx_cb, hsz, hdev]
  · simp [data_chan_rx_cb, hsz]

/-- C7: an inbound message strictly larger than `IPCF_BUF_LEN` is dropped by
`data_chan_rx_cb`: an error is logged, the transport buffer is still released
once, and no channel descriptor changes; a message of size exactly
`IPCF_BUF_LEN` whose `(instance, channel)` pair resolves is accepted and
buffered into the resolved descriptor via `push_msg`. -/
theorem claim_C7_oversize_rejected (descrs : List ChanDescr) (inst_id chan_id : Nat)
    (big small : List Nat)
    (hbig : IPCF_BUF_LEN < big.length)
    (hsmall : small.length = IPCF_BUF_LEN)
    (hdev : get_device_idx descrs inst_id chan_id ≠ IPC_INVALID) :
    data_chan_rx_cb descrs inst_id chan_id big =
      { descrs := descrs, releases := 1, err := some RxError.too_large } ∧
    data_chan_rx_cb descrs inst_id chan_id small =
      { descrs := descrs.set (get_device_idx descrs inst_id chan_id)
          (push_msg (descrs.getD (get_device_idx descrs inst_id chan_id) (init_chan 0 0))
            small)
        releases := 1
        err := none } := by
  constructor
  · simp [data_chan_rx_cb, Nat.not_le.mpr hbig]
  · simp [data_chan_rx_cb, Nat.le_of_eq hsmall, hdev]

theorem claim_C7_oversize_rejected_witness :
    data_chan_rx_cb [init_chan 0 0] 0 0 (List.replicate 129 1) =
      { descrs := [init_chan 0 0], releases := 1, err := some RxError.too_large } ∧
    data_chan_rx_cb [init_chan 0 0] 0 0 (List.replicate 128 1) =
      { descrs := ([init_chan 0 0]).set (get_device_idx [init_chan 0 0] 0 0)
          (push_msg (([init_chan 0 0]).getD (get_device_idx [init_chan 0 0] 0 0)
            (init_chan 0 0)) (List.replicate 128 1))
        releases := 1
        err := none } :=
  claim_C7_oversize_rejected [init_chan 0 0] 0 0 (List.replicate 129 1)
    (List.replicate 128 1) (by decide) (by decide) (by decide)

/-- C8: a pop (`get_next_pending_buff`) on a descriptor with
`num_pending_msg = 0`, or whose oldest pending slot is already marked
processed, returns no message and leaves the descriptor unchanged; iterating
such pops any number of times keeps returning `none` on the same state. -/
theorem claim_C8_empty_drain (s : ChanDescr)
    (h : s.num_pending_msg = 0 ∨ s.msg_processed.getD (oldest_idx s) true = true) :
    get_next_pending_buff s = (s, none) ∧
    ∀ n, pops s n = (List.replicate n none, s) := by
  have h1 : get_next_pending_buff s = (s, none) := by
    rcases h with hz | hpr
    · exact pop_empty s hz
    · rcases Nat.eq_zero_or_pos s.num_pending_msg with hz | hp
      · exact pop_empty s hz
      · simp only [get_next_pending_buff, oldest_idx_def, hpr]
        rw [if_neg (by omega)]
        simp
  refine ⟨h1, ?_⟩
  intro n
  induction n with
  | zero => simp [pops]
  | succ k ih =>
    simp only [pops, pop_take, h1]
    simp only [pops, pop_take, h1] at ih
    simp [ih, List.replicate_succ]

theorem claim_C8_empty_drain_witness :
    get_next_pending_buff (init_chan 0 0) = (init_chan 0 0, none) ∧
    pops (init_chan 0 0) 3 = (List.replicate 3 none, init_chan 0 0) :=
  ⟨(claim_C8_empty_drain (init_chan 0 0) (Or.inl rfl)).1,
    (claim_C8_empty_drain (init_chan 0 0) (Or.inl rfl)).2 3⟩

/-- C9: `ipcf_write` with no transport buffer available returns `-ENOMEM`
and transmits nothing; a successful write (buffer acquired, user copy ok,
`ipc_shm_tx` returning 0) silently truncates the payload to `IPCF_BUF_LEN`
bytes before transmission and returns exactly the number of bytes
transmitted, `min (payload length) IPCF_BUF_LEN`. -/
theorem claim_C9_write_truncation (user_buf : List Nat) (copy_ok : Bool) (tx_ret : Int) :
    ipcf_write false copy_ok tx_ret user_buf =
      { ret := -(ENOMEM : Int), transmitted := none } ∧
    ipcf_write true true 0 user_buf =
      { ret := ((min user_buf.length IPCF_BUF_LEN : Nat) : Int)
        transmitted := some (user_buf.take IPCF_BUF_LEN) } := by
  constructor
  · simp [ipcf_write]
  · by_cases h : IPCF_BUF_LEN < user_buf.length
    · simp [ipcf_write, h, Nat.min_eq_right (Nat.le_of_lt h)]
    · simp [ipcf_write, h, Nat.min_eq_left (Nat.not_lt.mp h), List.take_length,
        List.take_of_length_le (Nat.not_lt.mp h)]

/-- C4: for every descriptor state with the declared array lengths and
`free_buff_idx ≤ IPC_QUEUE_SIZE` (both hold in all reachable states) and
every payload of size at most `IPCF_BUF_LEN`, a push writes the payload into
slot `free_buff_idx mod IPC_QUEUE_SIZE` (the chosen index `push_idx` equals
that), records its size there, clears that slot's processed flag, advances
`free_buff_idx` by one modulo `IPC_QUEUE_SIZE`, saturates `num_pending_msg`
at `IPC_QUEUE_SIZE`, leaves all other slots untouched, and when
`num_pending_msg` is already `IPC_QUEUE_SIZE` it stays there and the written
slot is exactly the oldest pending slot (which is thus overwritten); no
error is ever reported (`push_msg` is total). -/
theorem claim_C4_push_step (s : ChanDescr) (m : List Nat)
    (hpool : s.chan_pool.length = IPC_QUEUE_SIZE)
    (hsize : s.msg_size.length = IPC_QUEUE_SIZE)
    (hproc : s.msg_processed.length = IPC_QUEUE_SIZE)
    (hfree : s.free_buff_idx ≤ IPC_QUEUE_SIZE)
    (hm : m.length ≤ IPCF_BUF_LEN) :
    push_idx s = s.free_buff_idx % IPC_QUEUE_SIZE ∧
    (push_msg s m).chan_pool.getD (push_idx s) [] =
      m ++ (s.chan_pool.getD (push_idx s) []).drop m.length ∧
    (push_msg s m).msg_size.getD (push_idx s) 0 = m.length ∧
    (push_msg s m).msg_processed.getD (push_idx s) true = false ∧
    (push_msg s m).free_buff_idx % IPC_QUEUE_SIZE = (s.free_buff_idx + 1) % IPC_QUEUE_SIZE ∧
    (push_msg s m).num_pending_msg = min IPC_QUEUE_SIZE (s.num_pending_msg + 1) ∧
    (∀ j, j < IPC_QUEUE_SIZE → j ≠ push_idx s →
      (push_msg s m).chan_pool.getD j [] = s.chan_pool.getD j [] ∧
      (push_msg s m).msg_size.getD j 0 = s.msg_size.getD j 0 ∧
      (push_msg s m).msg_processed.getD j true = s.msg_processed.getD j true) ∧
    (s.num_pending_msg = IPC_QUEUE_SIZE →
      (push_msg s m).num_pending_msg = IPC_QUEUE_SIZE ∧ push_idx s = oldest_idx s) := by
  have hfl := push_idx_lt s hfree
  refine ⟨push_idx_mod s hfree, ?_, ?_, ?_, ?_, push_msg_pend s m, ?_, ?_⟩
  · rw [push_msg_eq]
    dsimp only
    rw [getD_set_self _ _ _ _ (by rw [hpool]; exact hfl)]
  · rw [push_msg_eq]
    dsimp only
    rw [getD_set_self _ _ _ _ (by rw [hsize]; exact hfl)]
  · rw [push_msg_eq]
    dsimp only
    rw [getD_set_self _ _ _ _ (by rw [hproc]; exact hfl)]
  · rw [push_msg_free, push_idx_mod s hfree]
    simp only [queue_size_eq] at *
    omega
  · intro j hj hij
    rw [push_msg_eq]
    dsimp only
    exact ⟨getD_set_ne _ _ _ _ _ (fun he => hij he.symm),
      getD_set_ne _ _ _ _ _ (fun he => hij he.symm),
      getD_set_ne _ _ _ _ _ (fun he => hij he.symm)⟩
  · intro hfull
    constructor
    · rw [push_msg_pend, hfull]
      decide
    · rw [push_idx_mod s hfree]
      unfold oldest_idx
      rw [hfull]
      simp only [queue_size_eq] at *
      omega

theorem claim_C4_push_step_witness :
    push_idx (init_chan 0 0) = (init_chan 0 0).free_buff_idx % IPC_QUEUE_SIZE ∧
    (push_msg (init_chan 0 0) [7]).msg_size.getD (push_idx (init_chan 0 0)) 0 =
      [7].length ∧
    (push_msg (init_chan 0 0) [7]).num_pending_msg =
      min IPC_QUEUE_SIZE ((init_chan 0 0).num_pending_msg + 1) :=
  ⟨(claim_C4_push_step (init_chan 0 0) [7] (by decide) (by decide) (by decide)
      (by decide) (by decide)).1,
    (claim_C4_push_step (init_chan 0 0) [7] (by decide) (by decide) (by decide)
      (by decide) (by decide)).2.2.1,
    (claim_C4_push_step (init_chan 0 0) [7] (by decide) (by decide) (by decide)
      (by decide) (by decide)).2.2.2.2.2.1⟩

/-- C5: when the channel's framing flag is set, a successful `ipcf_read` of a
pending message of recorded size `S` delivers exactly `4 + S` bytes: the
first 4 are `S` as a big-endian 32-bit integer (they decode back to `S`),
the remaining `S` bytes are the stored payload; with the flag clear, the
read delivers exactly the `S` stored payload bytes. -/
theorem claim_C5_framing (ch : ChanDescr) (len S : Nat)
    (hp : 0 < ch.num_pending_msg)
    (hpr : ch.msg_processed.getD (oldest_idx ch) true = false)
    (hS : ch.msg_size.getD (oldest_idx ch) 0 = S)
    (hSlen : S ≤ (ch.chan_pool.getD (oldest_idx ch) []).length)
    (hSmax : S ≤ IPCF_BUF_LEN) :
    ((ipcf_read true ch len).2 =
        cpu_to_be32 S ++ (ch.chan_pool.getD (oldest_idx ch) []).take S ∧
      ((ipcf_read true ch len).2).length = 4 + S ∧
      be32_decode (((ipcf_read true ch len).2).take 4) = S ∧
      ((ipcf_read true ch len).2).drop 4 =
        (ch.chan_pool.getD (oldest_idx ch) []).take S) ∧
    ((ipcf_read false ch len).2 = (ch.chan_pool.getD (oldest_idx ch) []).take S ∧
      ((ipcf_read false ch len).2).length = S) := by
  have hr1 := read_succ true ch len (by omega) hpr
  have hr2 := read_succ false ch len (by omega) hpr
  rw [hS] at hr1 hr2
  have ha : (ipcf_read true ch len).2 =
      cpu_to_be32 S ++ (ch.chan_pool.getD (oldest_idx ch) []).take S := by
    rw [hr1]
    simp
  have hb : (ipcf_read false ch len).2 =
      (ch.chan_pool.getD (oldest_idx ch) []).take S := by
    rw [hr2]
    simp
  have h32 : S < 2 ^ 32 := by
    have hpow : (2 : Nat) ^ 32 = 4294967296 := by norm_num
    rw [hpow]
    simp only [buf_len_eq] at hSmax
    omega
  have hSlen2 : S ≤ ((ch.chan_pool[oldest_idx ch]?).getD []).length := by
    rw [← List.getD_eq_getElem?_getD]
    exact hSlen
  refine ⟨⟨ha, ?_, ?_, ?_⟩, hb, ?_⟩
  · rw [ha]
    simp [cpu_to_be32]
    omega
  · rw [ha, List.take_left' (cpu_to_be32_length S)]
    exact be32_decode_encode S h32
  · rw [ha, show (4 : Nat) = (cpu_to_be32 S).length from (cpu_to_be32_length S).symm,
      List.drop_left]
  · rw [hb]
    simp
    omega

theorem claim_C5_framing_witness :
    (ipcf_read true (push_msg (init_chan 0 0) [5, 6, 7]) 9).2 =
      cpu_to_be32 3 ++
        ((push_msg (init_chan 0 0) [5, 6, 7]).chan_pool.getD
          (oldest_idx (push_msg (init_chan 0 0) [5, 6, 7])) []).take 3 ∧
    (ipcf_read false (push_msg (init_chan 0 0) [5, 6, 7]) 9).2 =
      ((push_msg (init_chan 0 0) [5, 6, 7]).chan_pool.getD
        (oldest_idx (push_msg (init_chan 0 0) [5, 6, 7])) []).take 3 :=
  ⟨(claim_C5_framing (push_msg (init_chan 0 0) [5, 6, 7]) 9 3 (by decide) (by decide)
      (by decide) (by decide) (by decide)).1.1,
    (claim_C5_framing (push_msg (init_chan 0 0) [5, 6, 7]) 9 3 (by decide) (by decide)
      (by decide) (by decide) (by decide)).2.1⟩

/-- C10: the bytes delivered by `ipcf_read` on a channel with a pending
unprocessed message, and hence the returned byte count, are determined only
by the popped message's recorded size `S` (plus the 4-byte prefix when the
framing flag is set): the result is literally independent of the
caller-supplied `length` argument, which the source never reads, so a
message whose (optionally prefixed) size exceeds `length` is still delivered
in full. -/
theorem claim_C10_read_ignores_max_length (prepend : Bool) (ch : ChanDescr)
    (len len2 S : Nat)
    (hp : 0 < ch.num_pending_msg)
    (hpr : ch.msg_processed.getD (oldest_idx ch) true = false)
    (hS : ch.msg_size.getD (oldest_idx ch) 0 = S)
    (hSlen : S ≤ (ch.chan_pool.getD (oldest_idx ch) []).length) :
    ipcf_read prepend ch len = ipcf_read prepend ch len2 ∧
    ((ipcf_read prepend ch len).2).length = if prepend then 4 + S else S := by
  refine ⟨rfl, ?_⟩
  have hSlen2 : S ≤ ((ch.chan_pool[oldest_idx ch]?).getD []).length := by
    rw [← List.getD_eq_getElem?_getD]
    exact hSlen
  have hr := read_succ prepend ch len (by omega) hpr
  rw [hS] at hr
  rw [hr]
  cases prepend
  · simp
    omega
  · simp [cpu_to_be32]
    omega

theorem claim_C10_read_ignores_max_length_witness :
    ipcf_read true (push_msg (init_chan 0 0) [9]) 0 =
      ipcf_read true (push_msg (init_chan 0 0) [9]) 1000 ∧
    ((ipcf_read true (push_msg (init_chan 0 0) [9]) 0).2).length =
      if true then 4 + 1 else 1 :=
  claim_C10_read_ignores_max_length true (push_msg (init_chan 0 0) [9]) 0 1000 1
    (by decide) (by decide) (by decide) (by decide)

/-- C1: starting from the reset state, after `IPC_QUEUE_SIZE + k` pushes
(`k ≥ 1`, each payload at most `IPCF_BUF_LEN` bytes) with no intervening
pops, the next `IPC_QUEUE_SIZE` pops deliver exactly the `IPC_QUEUE_SIZE`
most recently pushed messages in arrival order — so precisely the `k` oldest
pushed messages are never returned by any pop — and one further pop returns
empty. -/
theorem claim_C1_capacity_bound (ms : List (List Nat)) (k : Nat)
    (hk : 1 ≤ k) (hlen : ms.length = IPC_QUEUE_SIZE + k)
    (hsz : ∀ m ∈ ms, m.length ≤ IPCF_BUF_LEN) :
    (pops (push_all (init_chan 0 0) ms) IPC_QUEUE_SIZE).1 = (ms.drop k).map some ∧
    (pop_take (pops (push_all (init_chan 0 0) ms) IPC_QUEUE_SIZE).2).2 = none := by
  have hsim := push_all_sim ms (init_chan 0 0) (WF_init 0 0)
  have hα : pending_msgs (push_all (init_chan 0 0) ms) = ms.drop k := by
    rw [hsim.2, pending_msgs_init, List.nil_append]
    congr 1
    show (init_chan 0 0).num_pending_msg + ms.length - IPC_QUEUE_SIZE = k
    have hz : (init_chan 0 0).num_pending_msg = 0 := rfl
    rw [hz, hlen]
    omega
  have hpend : (push_all (init_chan 0 0) ms).num_pending_msg = IPC_QUEUE_SIZE := by
    have hl := pending_msgs_length (push_all (init_chan 0 0) ms)
    rw [hα, List.length_drop, hlen] at hl
    omega
  have hpops := pops_sim IPC_QUEUE_SIZE (push_all (init_chan 0 0) ms) hsim.1
    (le_of_eq hpend.symm)
  constructor
  · rw [hpops.1, hα,
      List.take_of_length_le (by rw [List.length_drop, hlen]; omega)]
  · have hfin : pending_msgs (pops (push_all (init_chan 0 0) ms) IPC_QUEUE_SIZE).2 = [] := by
      rw [hpops.2.2, hα,
        List.drop_eq_nil_of_le (by rw [List.length_drop, hlen]; omega)]
    have hp0 : (pops (push_all (init_chan 0 0) ms) IPC_QUEUE_SIZE).2.num_pending_msg = 0 := by
      have hl := pending_msgs_length (pops (push_all (init_chan 0 0) ms) IPC_QUEUE_SIZE).2
      rw [hfin] at hl
      simpa using hl.symm
    simp [pop_take, pop_empty _ hp0]

theorem claim_C1_capacity_bound_witness :
    1 ≤ 1 ∧
    ((List.range 65).map fun i => [i]).length = IPC_QUEUE_SIZE + 1 ∧
    (∀ m ∈ (List.range 65).map fun i => [i], m.length ≤ IPCF_BUF_LEN) ∧
    ((pops (push_all (init_chan 0 0) ((List.range 65).map fun i => [i]))
        IPC_QUEUE_SIZE).1 =
      (((List.range 65).map fun i => [i]).drop 1).map some ∧
      (pop_take (pops (push_all (init_chan 0 0) ((List.range 65).map fun i => [i]))
        IPC_QUEUE_SIZE).2).2 = none) :=
  ⟨by decide, by decide, by decide,
    claim_C1_capacity_bound ((List.range 65).map fun i => [i]) 1 (by decide)
      (by decide) (by decide)⟩

/-- C2: in every sequential run of pushes and pops from the reset state, no
pushed message instance is ever returned by two distinct pops.  Each push is
tagged with a fresh serial number in the ghost-instrumented machine
(`ghost_run`), whose channel-descriptor component coincides with the source
machine (`run_ops`, first conjunct), and the trace of serial numbers handed
out by successful pops has no duplicate (second conjunct). -/
theorem claim_C2_no_double_delivery (ops : List ChanOp) :
    (ghost_run ops).ch = run_ops ops ∧ (ghost_run ops).delivered.Nodup := by
  constructor
  · show (ops.foldl ghost_step ghost_init).ch = ops.foldl chan_step (init_chan 0 0)
    rw [ghost_ch_foldl ops ghost_init]
    rfl
  · exact (ghost_inv_foldl ops ghost_init ghost_inv_init).2.2.2.2.1

/-- C3: in every state reachable from the reset state by pushes and pops,
`0 ≤ num_pending_msg ≤ IPC_QUEUE_SIZE`, and a slot's `msg_processed` flag is
false exactly when the slot lies in the circular half-open pending range
`[ (free_buff_idx - num_pending_msg) mod N, free_buff_idx mod N )` of length
`num_pending_msg` (`slot_pending`); equivalently, slots are pending iff they
are in that range, unprocessed iff pending, processed iff outside. -/
theorem claim_C3_state_invariant (ops : List ChanOp) :
    0 ≤ (run_ops ops).num_pending_msg ∧
    (run_ops ops).num_pending_msg ≤ IPC_QUEUE_SIZE ∧
    ∀ i, i < IPC_QUEUE_SIZE →
      ((run_ops ops).msg_processed.getD i true = false ↔
        slot_pending (run_ops ops) i) := by
  have hw := WF_run ops
  exact ⟨Nat.zero_le _, hw.2.2.2.1, hw.2.2.2.2.2⟩

theorem claim_C3_state_invariant_witness :
    0 ≤ (run_ops [ChanOp.push [1], ChanOp.pop, ChanOp.push [2]]).num_pending_msg ∧
    (run_ops [ChanOp.push [1], ChanOp.pop, ChanOp.push [2]]).num_pending_msg ≤
      IPC_QUEUE_SIZE ∧
    ((run_ops [ChanOp.push [1], ChanOp.pop, ChanOp.push [2]]).msg_processed.getD 5
        true = false ↔
      slot_pending (run_ops [ChanOp.push [1], ChanOp.pop, ChanOp.push [2]]) 5) :=
  ⟨(claim_C3_state_invariant [ChanOp.push [1], ChanOp.pop, ChanOp.push [2]]).1,
    (claim_C3_state_invariant [ChanOp.push [1], ChanOp.pop, ChanOp.push [2]]).2.1,
    (claim_C3_state_invariant [ChanOp.push [1], ChanOp.pop, ChanOp.push [2]]).2.2 5
      (by decide)⟩
